import Mathlib

/-!
Shallow embedding of the tagrs filesystem-backed tagged-collection index
(`src/collection.rs`).

Modelling conventions:
* A byte is a `Nat` (used with values `< 256`); an OS path component
  (`OsStr`) is its raw byte list; a `Path` is the list of its components.
* `HashMap` becomes an association list with insert-overwrite semantics,
  `HashSet` a duplicate-free-by-use list with guarded insert; iteration
  order, irrelevant in the source, is fixed by the list order.
* The filesystem is an explicit value (list of path/kind nodes) threaded
  through the operations that the tokio `fs` calls touch; `remove_file`
  and `symlink` take an extra failure flag modelling environmental I/O
  errors (permissions, races) beyond the deterministic missing/occupied
  conditions.
* Rust `Result<T, E>` becomes `Except Error T`; mutating methods return
  the post-state paired with `Option Error` so that the state left behind
  by a failing call is visible; the `.unwrap()` panic in `toggle_tag` is
  modelled by an `Option` layer (`none` = panic).
-/

set_option maxRecDepth 10000

namespace Tagrs

/-- One raw byte of an OS string (values `< 256` by use). -/
abbrev Byte := Nat

/-- Raw bytes of one path component (`OsStr::as_encoded_bytes`). -/
abbrev Name := List Byte

/-- A filesystem path as its list of components (`PathBuf`); `join`
is `++ [component]` and `file_name` is `getLast?`. -/
abbrev FsPath := List Name

/-! ### SHA-1 (the `sha1` crate's digest, over raw bytes) -/

/-- Truncate to a 32-bit word. -/
def w32 (n : Nat) : Nat := n % 4294967296

/-- Rotate a 32-bit word left by `s` bits. -/
def rotl (s n : Nat) : Nat :=
  w32 (Nat.lor (w32 (Nat.shiftLeft n s)) (Nat.shiftRight n (32 - s)))

/-- Big-endian 32-bit words from a 64-byte chunk. -/
def bytesToWords : List Byte → List Nat
  | b0 :: b1 :: b2 :: b3 :: rest =>
      (((b0 * 256 + b1) * 256 + b2) * 256 + b3) :: bytesToWords rest
  | _ => []

/-- Extend 16 message words to 80 (`fuel` counts the words still to add). -/
def extendWords : Nat → List Nat → List Nat
  | 0, ws => ws
  | fuel + 1, ws =>
      let n := ws.length
      let w := rotl 1 (Nat.xor (Nat.xor (ws.getD (n - 3) 0) (ws.getD (n - 8) 0))
        (Nat.xor (ws.getD (n - 14) 0) (ws.getD (n - 16) 0)))
      extendWords fuel (ws ++ [w])

/-- The SHA-1 round function and constant for round `i`. -/
def sha1FK (i b c d : Nat) : Nat × Nat :=
  if i < 20 then
    (Nat.lor (Nat.land b c) (Nat.land (w32 (4294967295 - b)) d), 1518500249)
  else if i < 40 then
    (Nat.xor (Nat.xor b c) d, 1859775393)
  else if i < 60 then
    (Nat.lor (Nat.lor (Nat.land b c) (Nat.land b d)) (Nat.land c d), 2400959708)
  else
    (Nat.xor (Nat.xor b c) d, 3395469782)

/-- One SHA-1 compression of a 64-byte chunk into the 5-word state. -/
def sha1Compress (h : List Nat) (chunk : List Byte) : List Nat :=
  let ws := extendWords 64 (bytesToWords chunk)
  let st := (List.range 80).foldl
    (fun (st : Nat × Nat × Nat × Nat × Nat) i =>
      let (a, b, c, d, e) := st
      let (f, k) := sha1FK i b c d
      let temp := w32 (rotl 5 a + f + e + k + ws.getD i 0)
      (temp, a, rotl 30 b, c, d))
    (h.getD 0 0, h.getD 1 0, h.getD 2 0, h.getD 3 0, h.getD 4 0)
  [w32 (h.getD 0 0 + st.1), w32 (h.getD 1 0 + st.2.1), w32 (h.getD 2 0 + st.2.2.1),
   w32 (h.getD 3 0 + st.2.2.2.1), w32 (h.getD 4 0 + st.2.2.2.2)]

/-- Split the padded message into 64-byte chunks (`fuel` bounds recursion). -/
def chunks64 : Nat → List Byte → List (List Byte)
  | 0, _ => []
  | _, [] => []
  | fuel + 1, l => l.take 64 :: chunks64 fuel (l.drop 64)

/-- Big-endian bytes of `n`, `k` bytes wide. -/
def beBytes : Nat → Nat → List Byte
  | 0, _ => []
  | k + 1, n => beBytes k (n / 256) ++ [n % 256]

/-- SHA-1 padding: `0x80`, zeros to 56 mod 64, then the 64-bit bit length. -/
def sha1Pad (ms : List Byte) : List Byte :=
  ms ++ [128] ++ List.replicate ((119 - ms.length % 64) % 64) 0
    ++ beBytes 8 (ms.length * 8)

/-- The 20-byte SHA-1 digest of a byte list. -/
def sha1 (ms : List Byte) : List Byte :=
  let padded := sha1Pad ms
  let h := (chunks64 padded.length padded).foldl sha1Compress
    [1732584193, 4023233417, 2562383102, 271733878, 3285377520]
  h.flatMap (beBytes 4)

/-- Sanity: SHA-1 of `"abc"` matches the standard test vector
`a9993e364706816aba3e25717850c26c9cd0d89d`. -/
theorem sha1_abc :
    sha1 [97, 98, 99] =
      [0xa9, 0x99, 0x3e, 0x36, 0x47, 0x06, 0x81, 0x6a, 0xba, 0x3e,
       0x25, 0x71, 0x78, 0x50, 0xc2, 0x6c, 0x9c, 0xd0, 0xd8, 0x9d] := by
  decide

/-- Sanity: SHA-1 of the empty message matches the standard test vector
`da39a3ee5e6b4b0d3255bfef95601890afd80709`. -/
theorem sha1_empty :
    sha1 [] =
      [0xda, 0x39, 0xa3, 0xee, 0x5e, 0x6b, 0x4b, 0x0d, 0x32, 0x55,
       0xbf, 0xef, 0x95, 0x60, 0x18, 0x90, 0xaf, 0xd8, 0x07, 0x09] := by
  decide

/-! ### The `Error` enum (`src/collection.rs` lines 195-203)

Payload abstractions: `io::Error` carries nothing the core logic inspects,
so the I/O variant (named after the wrapped error type in the source, and
`IOError` here) is payload-free; `anyhow::Error` is abstracted to its message
string; the `serde_json::Error` payload is likewise dropped. -/

inductive Error where
  | NotFound : Error
  | IOError : Error
  | Other (msg : String) : Error
  | JellyfinError (msg : String) : Error
  | InvalidPath (msg : String) : Error
  | JsonEncodingError : Error
deriving DecidableEq, Repr

/-- `PathnameHash([u8; 20])`: the 20-byte movie identifier. -/
structure PathnameHash where
  bytes : List Byte
deriving DecidableEq, Repr

/-- `PathnameHash::as_slice`. -/
def PathnameHash.as_slice (h : PathnameHash) : List Byte := h.bytes

/-- `TryFrom<&[u8]> for PathnameHash`: accepts exactly 20 bytes; the
`anyhow!("invalid hash length")` error reaches callers as `Error::Other`
through `From<anyhow::Error>`. -/
def PathnameHash.tryFrom (value : List Byte) : Except Error PathnameHash :=
  if value.length ≠ 20 then .error (.Other "invalid hash length")
  else .ok ⟨value⟩

/-! ### Hex (the `hex` crate: `hex::decode` / `hex::encode`) -/

/-- Value of one hex digit; `hex::decode` accepts both cases. -/
def hexVal (c : Char) : Option Nat :=
  if '0' ≤ c ∧ c ≤ '9' then some (c.toNat - 48)
  else if 'a' ≤ c ∧ c ≤ 'f' then some (c.toNat - 87)
  else if 'A' ≤ c ∧ c ≤ 'F' then some (c.toNat - 55)
  else none

/-- Decode hex digit pairs; an invalid character is
`FromHexError::InvalidHexCharacter`, surfaced as `Error::Other` through
`From<hex::FromHexError>`. -/
def hexDecodePairs : List Char → Except Error (List Byte)
  | [] => .ok []
  | [_] => .error (.Other "Odd number of digits")
  | c1 :: c2 :: rest =>
    match hexVal c1, hexVal c2 with
    | some hi, some lo =>
      match hexDecodePairs rest with
      | .ok bs => .ok ((16 * hi + lo) :: bs)
      | .error e => .error e
    | _, _ => .error (.Other "Invalid character")

/-- `hex::decode`: rejects odd length up front (`FromHexError::OddLength`),
then decodes digit pairs. -/
def hexDecode (cs : List Char) : Except Error (List Byte) :=
  if cs.length % 2 ≠ 0 then .error (.Other "Odd number of digits")
  else hexDecodePairs cs

/-- Lowercase hex digit for a value `< 16`. -/
def hexDigit (n : Nat) : Char :=
  if n < 10 then Char.ofNat (48 + n) else Char.ofNat (87 + n)

/-- `hex::encode`: two lowercase hex digits per byte. -/
def hexEncode (bs : List Byte) : List Char :=
  bs.flatMap (fun b => [hexDigit (b / 16), hexDigit (b % 16)])

/-- `FromStr for PathnameHash`: `Self::try_from(hex::decode(s)?.as_slice())`. -/
def PathnameHash.fromStr (s : List Char) : Except Error PathnameHash :=
  match hexDecode s with
  | .error e => .error e
  | .ok bs => PathnameHash.tryFrom bs

/-- `Movie::id`: `hex::encode(self.hash.as_slice())`. -/
def movieId (hash : PathnameHash) : List Char :=
  hexEncode hash.as_slice

/-! ### UTF-8 (Rust `OsStr::to_str` validity and `to_string_lossy`)

A decoded string is modelled as its list of Unicode code points. The
strict decoder matches Rust's UTF-8 validation (rejecting overlong forms,
surrogates and values above `0x10FFFF`). The lossy decoder is total; it
replaces each offending byte with U+FFFD (`to_string_lossy` groups a
maximal invalid run into one replacement, a granularity difference no
property here depends on). -/

/-- Is `b` a UTF-8 continuation byte (`10xxxxxx`)? -/
def isCont (b : Byte) : Bool := 128 ≤ b ∧ b < 192

/-- Payload of a continuation byte. -/
def contVal (b : Byte) : Nat := b - 128

/-- Decode one code point from the head of a byte list: the code point,
the bytes consumed, and the rest; `none` on invalid input. -/
def utf8DecodeOne : List Byte → Option (Nat × List Byte)
  | [] => none
  | b1 :: rest =>
    if b1 < 128 then some (b1, rest)
    else if 194 ≤ b1 ∧ b1 ≤ 223 then
      match rest with
      | b2 :: rest2 =>
        if isCont b2 then some ((b1 - 192) * 64 + contVal b2, rest2) else none
      | [] => none
    else if 224 ≤ b1 ∧ b1 ≤ 239 then
      match rest with
      | b2 :: b3 :: rest3 =>
        if isCont b2 ∧ isCont b3 ∧
            (b1 ≠ 224 ∨ 160 ≤ b2) ∧ (b1 ≠ 237 ∨ b2 < 160) then
          some (((b1 - 224) * 64 + contVal b2) * 64 + contVal b3, rest3)
        else none
      | _ => none
    else if 240 ≤ b1 ∧ b1 ≤ 244 then
      match rest with
      | b2 :: b3 :: b4 :: rest4 =>
        if isCont b2 ∧ isCont b3 ∧ isCont b4 ∧
            (b1 ≠ 240 ∨ 144 ≤ b2) ∧ (b1 ≠ 244 ∨ b2 < 144) then
          some ((((b1 - 240) * 64 + contVal b2) * 64 + contVal b3) * 64
            + contVal b4, rest4)
        else none
      | _ => none
    else none

/-- Strict UTF-8 decoding of a whole byte list (`OsStr::to_str` succeeds
exactly when this is `some`); `fuel` bounds the recursion. -/
def utf8DecodeAux : Nat → List Byte → Option (List Nat)
  | _, [] => some []
  | 0, _ :: _ => none
  | fuel + 1, bs =>
    match utf8DecodeOne bs with
    | none => none
    | some (cp, rest) =>
      match utf8DecodeAux fuel rest with
      | none => none
      | some cps => some (cp :: cps)

/-- Strict UTF-8 decoding (`OsStr::to_str`, as code points). -/
def utf8Decode (bs : List Byte) : Option (List Nat) :=
  utf8DecodeAux bs.length bs

/-- Lossy UTF-8 decoding (`to_string_lossy`, as code points): total,
offending bytes become U+FFFD (`65533`). -/
def utf8LossyAux : Nat → List Byte → List Nat
  | _, [] => []
  | 0, _ :: _ => []
  | fuel + 1, b :: bs =>
    match utf8DecodeOne (b :: bs) with
    | some (cp, rest) => cp :: utf8LossyAux fuel rest
    | none => 65533 :: utf8LossyAux fuel bs

/-- Lossy UTF-8 decoding of a whole byte list. -/
def utf8Lossy (bs : List Byte) : List Nat :=
  utf8LossyAux bs.length bs

/-- UTF-8 encoding of one code point (total on values `< 0x110000`). -/
def utf8EncodeChar (cp : Nat) : List Byte :=
  if cp < 128 then [cp]
  else if cp < 2048 then [192 + cp / 64, 128 + cp % 64]
  else if cp < 65536 then [224 + cp / 4096, 128 + cp / 64 % 64, 128 + cp % 64]
  else [240 + cp / 262144, 128 + cp / 4096 % 64, 128 + cp / 64 % 64, 128 + cp % 64]

/-- UTF-8 encoding of a code-point list (a Rust `String`'s bytes, as used
when a `&str` tag name is joined onto a path). -/
def utf8Encode (cps : List Nat) : List Byte :=
  cps.flatMap utf8EncodeChar

/-! ### Association-list maps (`HashMap`) and sets (`HashSet`) -/

/-- Lookup in a string-keyed map (tag names are decoded code-point
lists); the hash maps of the source have no iteration order, the model
fixes the list order. -/
def tagLookup {α : Type} (m : List (List Nat × α)) (k : List Nat) : Option α :=
  (m.find? (fun kv => decide (kv.1 = k))).map Prod.snd

/-- Insert into a string-keyed map, overwriting an existing binding. -/
def tagInsert {α : Type} (m : List (List Nat × α)) (k : List Nat) (v : α) :
    List (List Nat × α) :=
  (k, v) :: m.filter (fun kv => ¬ kv.1 = k)

/-- `HashSet::insert`: no effect when the element is already present. -/
def setInsert (s : List PathnameHash) (h : PathnameHash) : List PathnameHash :=
  if h ∈ s then s else s ++ [h]

/-- `HashSet::remove`. -/
def setRemove (s : List PathnameHash) (h : PathnameHash) : List PathnameHash :=
  s.filter (fun x => ¬ x = h)

/-! ### The filesystem model -/

/-- Kind of a filesystem node; a symlink records its target (created by
`toggle_tag`, never dereferenced by the core). -/
inductive FileKind where
  | dir : FileKind
  | file : FileKind
  | symlink (target : FsPath) : FileKind
deriving DecidableEq, Repr

/-- `FileType::is_dir`. -/
def FileKind.is_dir : FileKind → Bool
  | .dir => true
  | _ => false

/-- `FileType::is_symlink`. -/
def FileKind.is_symlink : FileKind → Bool
  | .symlink _ => true
  | _ => false

/-- The filesystem as a finite list of absolute paths with their kinds.
Paths are taken as already canonical: the model has no `.`/`..` segments
and no symlink aliasing of directory prefixes. -/
structure Fs where
  nodes : List (FsPath × FileKind)
deriving DecidableEq, Repr

/-- Kind of the node at `p`, if present. -/
def Fs.lookup (fs : Fs) (p : FsPath) : Option FileKind :=
  (fs.nodes.find? (fun pk => decide (pk.1 = p))).map Prod.snd

/-- A directory entry as yielded by `read_dir`: the entry's own name and
its `file_type()`. `entry.path()` is the listed directory joined with the
name. -/
structure DirEntry where
  name : Name
  kind : FileKind
deriving DecidableEq, Repr

/-- `tokio::fs::read_dir` + the `next_entry` loop: fails with the I/O error
unless `d` is a directory; otherwise lists the direct children in node
order. -/
def Fs.readDir (fs : Fs) (d : FsPath) : Except Error (List DirEntry) :=
  if fs.lookup d = some .dir then
    .ok (fs.nodes.filterMap (fun pk =>
      match pk.1.getLast? with
      | some n => if pk.1.dropLast = d then some ⟨n, pk.2⟩ else none
      | none => none))
  else .error .IOError

/-- `tokio::fs::canonicalize`: fails with the I/O error on a missing path;
on the already-canonical paths of this model it is the identity. -/
def canonicalize (fs : Fs) (p : FsPath) : Except Error FsPath :=
  if (fs.lookup p).isSome then .ok p else .error .IOError

/-- `tokio::fs::remove_file`: fails on a missing path or a directory;
`fail` injects an environmental error (permissions, external race). -/
def removeFile (fs : Fs) (p : FsPath) (fail : Bool) : Except Error Fs :=
  match fs.lookup p with
  | none => .error .IOError
  | some .dir => .error .IOError
  | some _ =>
    if fail then .error .IOError
    else .ok ⟨fs.nodes.filter (fun pk => ¬ pk.1 = p)⟩

/-- `tokio::fs::symlink original link`: fails when something already
exists at `link`; `fail` injects an environmental error. -/
def symlinkCreate (fs : Fs) (original link : FsPath) (fail : Bool) :
    Except Error Fs :=
  if fail ∨ (fs.lookup link).isSome then .error .IOError
  else .ok ⟨fs.nodes ++ [(link, .symlink original)]⟩

/-! ### `path_hash` and the collection data types -/

/-- `path_hash` (`src/collection.rs` lines 66-79): SHA-1 of the raw bytes
of the path's final component; a path without one yields
`anyhow!("invalid file name: ...")`, which reaches callers as
`Error::Other` (the source interpolates the lossy path display into the
message; the model keeps the fixed prefix). -/
def path_hash (p : FsPath) : Except Error PathnameHash :=
  match p.getLast? with
  | none => .error (.Other "invalid file name")
  | some name => .ok ⟨sha1 name⟩

/-- The `Movie` record; `name` is the lossy-decoded directory name. -/
structure Movie where
  name : List Nat
  path : FsPath
  hash : PathnameHash
  poster_path : Option FsPath
deriving DecidableEq, Repr

/-- `type Movies = HashMap<PathnameHash, Movie>`. -/
abbrev Movies := List (PathnameHash × Movie)

/-- Movie-table lookup. -/
def moviesLookup (m : Movies) (k : PathnameHash) : Option Movie :=
  (m.find? (fun kv => decide (kv.1 = k))).map Prod.snd

/-- Movie-table insert (`HashMap::insert`, overwriting). -/
def moviesInsert (m : Movies) (k : PathnameHash) (v : Movie) : Movies :=
  (k, v) :: m.filter (fun kv => ¬ kv.1 = k)

/-- `type Tags = HashMap<String, HashSet<PathnameHash>>`. -/
abbrev Tags := List (List Nat × List PathnameHash)

/-- The `Collection`: tag table, movie table and the two canonical roots. -/
structure Collection where
  tags : Tags
  movies : Movies
  movie_dir : FsPath
  tag_dir : FsPath
deriving DecidableEq, Repr

/-! ### `Collection::load_movies` (lines 98-127) -/

/-- The component `"poster.jpg"` as bytes. -/
def posterJpg : Name := [112, 111, 115, 116, 101, 114, 46, 106, 112, 103]

/-- The `while let Some(entry)` body of `load_movies`: for each directory
entry that is a directory, build a `Movie` (lossy name, joined path,
`path_hash`, `poster.jpg` existence probe) and insert it by hash. -/
def moviesLoop (fs : Fs) (movie_dir : FsPath) :
    List DirEntry → Movies → Except Error Movies
  | [], movies => .ok movies
  | e :: rest, movies =>
    if e.kind.is_dir then
      let name := utf8Lossy e.name
      let path := movie_dir ++ [e.name]
      match path_hash path with
      | .error er => .error er
      | .ok hash =>
        let possible_poster_path := path ++ [posterJpg]
        let poster_path :=
          if (fs.lookup possible_poster_path).isSome then
            some possible_poster_path
          else none
        moviesLoop fs movie_dir rest
          (moviesInsert movies hash ⟨name, path, hash, poster_path⟩)
    else moviesLoop fs movie_dir rest movies

/-- `Collection::load_movies`. -/
def load_movies (fs : Fs) (movie_dir : FsPath) : Except Error Movies :=
  match fs.readDir movie_dir with
  | .error e => .error e
  | .ok entries => moviesLoop fs movie_dir entries []

/-! ### `Collection::load_tags` (lines 129-161) -/

/-- First pass of `load_tags`: each directory entry that is a directory
and not in the ignore set becomes a tag with an empty membership set; a
name that is not valid UTF-8 aborts with
`anyhow!("Invalid tag directory name")` (reaching callers as
`Error::Other`). -/
def tagsLoop1 (tag_index_dir : FsPath) (ignore : List FsPath) :
    List DirEntry → Tags → Except Error Tags
  | [], tags => .ok tags
  | e :: rest, tags =>
    if e.kind.is_dir then
      if tag_index_dir ++ [e.name] ∈ ignore then
        tagsLoop1 tag_index_dir ignore rest tags
      else
        match utf8Decode e.name with
        | none => .error (.Other "Invalid tag directory name")
        | some tag => tagsLoop1 tag_index_dir ignore rest (tagInsert tags tag [])
    else tagsLoop1 tag_index_dir ignore rest tags

/-- Inner loop of the second pass: every entry of a tag's directory that
is a symlink contributes `path_hash` of its own path to the membership
set. -/
def tagLinksLoop (tag_dir : FsPath) :
    List DirEntry → List PathnameHash → Except Error (List PathnameHash)
  | [], s => .ok s
  | e :: rest, s =>
    if e.kind.is_symlink then
      match path_hash (tag_dir ++ [e.name]) with
      | .error er => .error er
      | .ok h => tagLinksLoop tag_dir rest (setInsert s h)
    else tagLinksLoop tag_dir rest s

/-- Second pass of `load_tags` (`for (tag, movie_tags) in tags.iter_mut()`):
populate each tag's set from the symlinks inside
`tag_index_dir.join(tag)`. -/
def tagsLoop2 (fs : Fs) (tag_index_dir : FsPath) : Tags → Except Error Tags
  | [] => .ok []
  | (tag, s) :: rest =>
    let tag_dir := tag_index_dir ++ [utf8Encode tag]
    match fs.readDir tag_dir with
    | .error e => .error e
    | .ok entries =>
      match tagLinksLoop tag_dir entries s with
      | .error e => .error e
      | .ok s2 =>
        match tagsLoop2 fs tag_index_dir rest with
        | .error e => .error e
        | .ok rest2 => .ok ((tag, s2) :: rest2)

/-- `Collection::load_tags`. -/
def load_tags (fs : Fs) (tag_index_dir : FsPath) (ignore : List FsPath) :
    Except Error Tags :=
  match fs.readDir tag_index_dir with
  | .error e => .error e
  | .ok entries =>
    match tagsLoop1 tag_index_dir ignore entries [] with
    | .error e => .error e
    | .ok tags => tagsLoop2 fs tag_index_dir tags

/-! ### `Collection::new` (lines 82-96) -/

/-- `Collection::new`: canonicalize both roots, put the canonical movie
root into the ignore set, then run the movie scan (over the *original*
`movie_dir` argument, as the source does) and the tag scan (over the
canonical tag root, with the ignore set). -/
def Collection.new (fs : Fs) (movie_dir tag_dir : FsPath) :
    Except Error Collection :=
  match canonicalize fs movie_dir with
  | .error e => .error e
  | .ok abs_movie_dir =>
    match canonicalize fs tag_dir with
    | .error e => .error e
    | .ok abs_tag_dir =>
      let ignore_paths := [abs_movie_dir]
      match load_movies fs movie_dir with
      | .error e => .error e
      | .ok movies =>
        match load_tags fs abs_tag_dir ignore_paths with
        | .error e => .error e
        | .ok tags => .ok ⟨tags, movies, abs_movie_dir, abs_tag_dir⟩

/-! ### `Collection::toggle_tag` (lines 163-177) -/

/-- Environmental failure flags for the two filesystem mutations a toggle
can attempt ("no external interference" is both `false`). -/
structure ToggleEnv where
  failRemove : Bool
  failLink : Bool
deriving DecidableEq, Repr

/-- The interference-free environment. -/
def noFail : ToggleEnv := ⟨false, false⟩

/-- `Collection::toggle_tag`. The outer `Option` models the
`movie.path.file_name().unwrap()` panic (`none` = panic). A normal
return carries the post-state (collection and filesystem) and the error,
if any: `ok_or(Error::NotFound)?` on a missing tag, then either
`remove_file` + `HashSet::remove` or `symlink` + `HashSet::insert`, the
filesystem call strictly before the in-memory update. -/
def toggle_tag (c : Collection) (fs : Fs) (env : ToggleEnv)
    (tag : List Nat) (movie : Movie) :
    Option ((Collection × Fs) × Option Error) :=
  match tagLookup c.tags tag with
  | none => some ((c, fs), some .NotFound)
  | some tag_movies =>
    match movie.path.getLast? with
    | none => none
    | some base =>
      let tag_path := c.tag_dir ++ [utf8Encode tag] ++ [base]
      let movie_path := c.movie_dir ++ [base]
      if movie.hash ∈ tag_movies then
        match removeFile fs tag_path env.failRemove with
        | .error e => some ((c, fs), some e)
        | .ok fs2 =>
          some ((⟨tagInsert c.tags tag (setRemove tag_movies movie.hash),
            c.movies, c.movie_dir, c.tag_dir⟩, fs2), none)
      else
        match symlinkCreate fs movie_path tag_path env.failLink with
        | .error e => some ((c, fs), some e)
        | .ok fs2 =>
          some ((⟨tagInsert c.tags tag (setInsert tag_movies movie.hash),
            c.movies, c.movie_dir, c.tag_dir⟩, fs2), none)

/-! ### `Collection::reload` (lines 179-186) -/

/-- `Collection::reload`: assigns `self.movies` from a fresh movie scan
*first*, then assigns `self.tags` from a fresh tag scan (ignore set =
`{self.movie_dir}`). The returned pair is the post-state and the error,
if any — mirroring that the source mutates `self` field by field. -/
def reload (c : Collection) (fs : Fs) : Collection × Option Error :=
  match load_movies fs c.movie_dir with
  | .error e => (c, some e)
  | .ok ms =>
    let c1 : Collection := ⟨c.tags, ms, c.movie_dir, c.tag_dir⟩
    match load_tags fs c1.tag_dir [c1.movie_dir] with
    | .error e => (c1, some e)
    | .ok ts => (⟨ts, c1.movies, c1.movie_dir, c1.tag_dir⟩, none)

/-! ### Decidability helpers -/

instance {ε α : Type} [DecidableEq ε] [DecidableEq α] :
    DecidableEq (Except ε α) := fun x y =>
  match x, y with
  | .ok a, .ok b =>
    if h : a = b then .isTrue (by rw [h]) else .isFalse (by simp [h])
  | .error a, .error b =>
    if h : a = b then .isTrue (by rw [h]) else .isFalse (by simp [h])
  | .ok _, .error _ => .isFalse (by simp)
  | .error _, .ok _ => .isFalse (by simp)

/-- Is this error the catch-all `Error::Other` (a wrapped `anyhow` error)? -/
def Error.isOther : Error → Bool
  | .Other _ => true
  | _ => false

/-- Is this error the `Error::InvalidPath` variant? -/
def Error.isInvalidPath : Error → Bool
  | .InvalidPath _ => true
  | _ => false

/-! ### Claim theorems -/

/-- Claim C6: Identifier derivation is a deterministic pure function of the
path's final component only: any path whose final component is `name`
hashes to the 20-byte SHA-1 digest of `name`'s raw bytes, so two paths
sharing a final component yield identical identifiers regardless of their
parent directories (and recomputation on the same path trivially yields
the same bytes, `path_hash` being a function). -/
theorem path_hash_final_component_only (p q : FsPath) (name : Name)
    (hp : p.getLast? = some name) (hq : q.getLast? = some name) :
    path_hash p = .ok ⟨sha1 name⟩ ∧ path_hash p = path_hash q := by
  simp [path_hash, hp, hq]

/-- Witness for C6: `"m/a"` and `"a"` share the final component `"a"`. -/
theorem path_hash_final_component_only_witness :
    path_hash [[109], [97]] = .ok ⟨sha1 [97]⟩ ∧
      path_hash [[109], [97]] = path_hash [[97]] :=
  path_hash_final_component_only [[109], [97]] [[97]] [97] rfl rfl

/-- Lowercase hex digits. -/
def isLowerHexDigit (c : Char) : Bool :=
  ('0' ≤ c ∧ c ≤ '9') ∨ ('a' ≤ c ∧ c ≤ 'f')

theorem hexVal_hexDigit : ∀ n < 16, hexVal (hexDigit n) = some n := by decide

theorem hexDigit_lower : ∀ n < 16, isLowerHexDigit (hexDigit n) = true := by
  decide

theorem hexEncode_cons (b : Nat) (rest : List Nat) :
    hexEncode (b :: rest) =
      hexDigit (b / 16) :: hexDigit (b % 16) :: hexEncode rest := by
  simp [hexEncode]

theorem hexEncode_length (bs : List Nat) :
    (hexEncode bs).length = 2 * bs.length := by
  induction bs with
  | nil => rfl
  | cons b rest ih => rw [hexEncode_cons]; simp [ih]; omega

theorem hexDecodePairs_hexEncode (bs : List Nat) (h : ∀ b ∈ bs, b < 256) :
    hexDecodePairs (hexEncode bs) = .ok bs := by
  induction bs with
  | nil => rfl
  | cons b rest ih =>
    have hb : b < 256 := h b (List.mem_cons_self b rest)
    have hrest : ∀ x ∈ rest, x < 256 := fun x hx => h x (List.mem_cons_of_mem b hx)
    have e1 : hexVal (hexDigit (b / 16)) = some (b / 16) :=
      hexVal_hexDigit (b / 16) (by omega)
    have e2 : hexVal (hexDigit (b % 16)) = some (b % 16) :=
      hexVal_hexDigit (b % 16) (by omega)
    rw [hexEncode_cons]
    simp [hexDecodePairs, e1, e2, ih hrest, Nat.div_add_mod]

theorem hexEncode_mem_lower (bs : List Nat) (h : ∀ b ∈ bs, b < 256) :
    ∀ c ∈ hexEncode bs, isLowerHexDigit c = true := by
  induction bs with
  | nil => intro c hc; simp [hexEncode] at hc
  | cons b rest ih =>
    intro c hc
    have hb : b < 256 := h b (List.mem_cons_self b rest)
    rw [hexEncode_cons, List.mem_cons, List.mem_cons] at hc
    rcases hc with hc | hc | hc
    · exact hc ▸ hexDigit_lower (b / 16) (by omega)
    · exact hc ▸ hexDigit_lower (b % 16) (by omega)
    · exact ih (fun x hx => h x (List.mem_cons_of_mem b hx)) c hc

/-- Claim C7: Hex round-trip: serializing any 20-byte identifier value to
hex yields a lowercase string of exactly 40 hex characters
(`Movie::id` via `hex::encode`), and parsing it back
(`PathnameHash::from_str`) recovers the original 20-byte value. -/
theorem hex_roundtrip (bs : List Nat) (hlen : bs.length = 20)
    (hb : ∀ b ∈ bs, b < 256) :
    (movieId ⟨bs⟩).length = 40 ∧
      (∀ c ∈ movieId ⟨bs⟩, isLowerHexDigit c = true) ∧
      PathnameHash.fromStr (movieId ⟨bs⟩) = .ok ⟨bs⟩ := by
  have hlen40 : (hexEncode bs).length = 40 := by
    rw [hexEncode_length, hlen]
  refine ⟨hlen40, hexEncode_mem_lower bs hb, ?_⟩
  unfold movieId PathnameHash.as_slice PathnameHash.fromStr hexDecode
  rw [hlen40]
  simp [hexDecodePairs_hexEncode bs hb, PathnameHash.tryFrom, hlen]

/-- Witness for C7 at the digest of the byte `"a"`. -/
theorem hex_roundtrip_witness :
    (movieId ⟨sha1 [97]⟩).length = 40 ∧
      (∀ c ∈ movieId ⟨sha1 [97]⟩, isLowerHexDigit c = true) ∧
      PathnameHash.fromStr (movieId ⟨sha1 [97]⟩) = .ok ⟨sha1 [97]⟩ :=
  hex_roundtrip (sha1 [97]) (by decide) (by decide)

theorem hexDecodePairs_bounded_spec :
    ∀ n (s : List Char), s.length ≤ n →
      (∀ e, hexDecodePairs s = .error e → e.isOther = true) ∧
      (∀ bs, hexDecodePairs s = .ok bs →
        2 * bs.length = s.length ∧ ∀ c ∈ s, (hexVal c).isSome = true) := by
  intro n
  induction n with
  | zero =>
    intro s hs
    cases s with
    | nil =>
      refine ⟨fun e he => by simp [hexDecodePairs] at he, fun bs h => ?_⟩
      simp [hexDecodePairs] at h
      constructor
      · simp [← h]
      · intro c hc; simp at hc
    | cons c tail => simp at hs
  | succ n ihn =>
    intro s hs
    match s with
    | [] =>
      refine ⟨fun e he => by simp [hexDecodePairs] at he, fun bs h => ?_⟩
      simp [hexDecodePairs] at h
      constructor
      · simp [← h]
      · intro c hc; simp at hc
    | [c] =>
      refine ⟨fun e he => ?_, fun bs h => by simp [hexDecodePairs] at h⟩
      simp [hexDecodePairs] at he
      simp [← he, Error.isOther]
    | c1 :: c2 :: rest =>
      have hrest : rest.length ≤ n := by simp at hs; omega
      obtain ⟨ihe, iho⟩ := ihn rest hrest
      constructor
      · intro e he
        rw [hexDecodePairs] at he
        cases hv1 : hexVal c1 <;> cases hv2 : hexVal c2 <;>
            rw [hv1, hv2] at he <;> simp at he
        · simp [← he, Error.isOther]
        · simp [← he, Error.isOther]
        · simp [← he, Error.isOther]
        · cases hp : hexDecodePairs rest with
          | ok bs => rw [hp] at he; simp at he
          | error e2 =>
            rw [hp] at he; simp at he
            exact he ▸ ihe e2 hp
      · intro bs h
        rw [hexDecodePairs] at h
        cases hv1 : hexVal c1 <;> cases hv2 : hexVal c2 <;>
            rw [hv1, hv2] at h <;> simp at h
        cases hp : hexDecodePairs rest with
        | error e2 => rw [hp] at h; simp at h
        | ok bs2 =>
          rw [hp] at h; simp at h
          obtain ⟨hl, hv⟩ := iho bs2 hp
          constructor
          · simp [← h]; omega
          · intro c hc
            rw [List.mem_cons, List.mem_cons] at hc
            rcases hc with rfl | rfl | hc
            · simp [hv1]
            · simp [hv2]
            · exact hv c hc

theorem hexDecodePairs_error_isOther (s : List Char) (e : Error)
    (h : hexDecodePairs s = .error e) : e.isOther = true :=
  (hexDecodePairs_bounded_spec s.length s le_rfl).1 e h

theorem hexDecodePairs_ok_length (s : List Char) (bs : List Byte)
    (h : hexDecodePairs s = .ok bs) : 2 * bs.length = s.length :=
  ((hexDecodePairs_bounded_spec s.length s le_rfl).2 bs h).1

theorem hexDecodePairs_ok_valid (s : List Char) (bs : List Byte)
    (h : hexDecodePairs s = .ok bs) : ∀ c ∈ s, (hexVal c).isSome = true :=
  ((hexDecodePairs_bounded_spec s.length s le_rfl).2 bs h).2

theorem hexDecode_error_isOther (s : List Char) (e : Error)
    (h : hexDecode s = .error e) : e.isOther = true := by
  unfold hexDecode at h
  by_cases hp : s.length % 2 ≠ 0
  · simp [hp] at h; simp [← h, Error.isOther]
  · simp [hp] at h
    exact hexDecodePairs_error_isOther s e h

/-- Claim C8, counterexample: The code's error enum has no `InvalidInput`
variant: deriving an identifier from a path with no final component, and
parsing a malformed or wrong-length hex string, all surface as the
generic `Error::Other` (a wrapped `anyhow`/`hex` error, mapped to HTTP
500 "Internal server error"), not as a dedicated invalid-input condition
(the only input-named variant, `Error::InvalidPath`, is never produced by
these paths). -/
theorem invalid_input_counterexample :
    path_hash ([] : FsPath) = .error (.Other "invalid file name") ∧
    PathnameHash.fromStr ['z', 'z'] = .error (.Other "Invalid character") ∧
    PathnameHash.fromStr ['a'] = .error (.Other "Odd number of digits") ∧
    PathnameHash.fromStr (hexEncode (List.replicate 19 0)) =
      .error (.Other "invalid hash length") ∧
    Error.isInvalidPath (.Other "invalid file name") = false ∧
    Error.isOther (.Other "invalid file name") = true := by
  decide

/-- Claim C8, amended: Identifier-handling failures are surfaced as the
generic `Other` error condition: deriving an identifier from a path with
no final component fails with `Error::Other`, and parsing a hex string of
length other than 40 or containing a non-hex character fails with
`Error::Other` — there is no dedicated `InvalidInput` condition. -/
theorem invalid_input_amended :
    (∀ p : FsPath, p.getLast? = none →
      path_hash p = .error (.Other "invalid file name")) ∧
    (∀ s : List Char, (s.length ≠ 40 ∨ ∃ c ∈ s, hexVal c = none) →
      ∃ msg, PathnameHash.fromStr s = .error (.Other msg)) := by
  constructor
  · intro p hp; simp [path_hash, hp]
  · intro s hs
    unfold PathnameHash.fromStr
    cases hd : hexDecode s with
    | error e =>
      have ho := hexDecode_error_isOther s e hd
      cases e <;> simp [Error.isOther] at ho ⊢
    | ok bs =>
      have hpar : s.length % 2 = 0 := by
        by_contra hpar
        unfold hexDecode at hd
        simp [hpar] at hd
      have hpairs : hexDecodePairs s = .ok bs := by
        unfold hexDecode at hd
        simpa [hpar] using hd
      have hlen2 := hexDecodePairs_ok_length s bs hpairs
      have hvalid := hexDecodePairs_ok_valid s bs hpairs
      have hlen : bs.length ≠ 20 := by
        rcases hs with hs | ⟨c, hc, hv⟩
        · omega
        · have := hvalid c hc; rw [hv] at this; simp at this
      simp [PathnameHash.tryFrom, hlen]

/-- Witness for the amended C8: the empty path and the 1-character
string `"g"`. -/
theorem invalid_input_amended_witness :
    path_hash ([] : FsPath) = .error (.Other "invalid file name") ∧
    ∃ msg, PathnameHash.fromStr ['g'] = .error (.Other msg) :=
  ⟨invalid_input_amended.1 [] rfl,
   invalid_input_amended.2 ['g'] (Or.inl (by decide))⟩

/-! ### C1: reload is a sequential replace, not an atomic swap -/

/-- A filesystem with movie root `"m"` present and empty, and the tag
root `"t"` absent (so the movie scan succeeds and the tag scan fails). -/
def fsA : Fs := ⟨[([[109]], .dir)]⟩

/-- The identifier of the movie directory `"a"`. -/
def h0 : PathnameHash := ⟨sha1 [97]⟩

/-- A movie record for `"m/a"` as the loader would have built it. -/
def m0 : Movie := ⟨[97], [[109], [97]], h0, none⟩

/-- A collection holding one movie, with roots `"m"` and `"t"`. -/
def c0 : Collection := ⟨[], [(h0, m0)], [[109]], [[116]]⟩

/-- Claim C1, counterexample: A failing `reload` does *not* leave the
`Collection` as it was: on `c0` over `fsA` the movie scan succeeds (the
root is empty) and the tag scan fails (the tag root is missing), and the
failed call leaves the movie table freshly replaced (now empty) next to
the stale tag table — `self.movies` is assigned before the tag scan
runs. -/
theorem reload_counterexample :
    (reload c0 fsA).2 = some .IOError ∧
    (reload c0 fsA).1 ≠ c0 ∧
    (reload c0 fsA).1.movies = [] ∧
    (reload c0 fsA).1.tags = c0.tags := by decide

/-- Claim C1, amended: `reload` replaces the tables sequentially, not
atomically: a movie-scan failure leaves the `Collection` unchanged, but
a tag-scan failure after a successful movie scan leaves the movie table
replaced with the fresh scan while the tag table keeps its old value;
only when both scans succeed are both tables replaced. -/
theorem reload_sequential_replace (c : Collection) (fs : Fs) :
    (∀ e, load_movies fs c.movie_dir = .error e → reload c fs = (c, some e)) ∧
    (∀ ms e, load_movies fs c.movie_dir = .ok ms →
      load_tags fs c.tag_dir [c.movie_dir] = .error e →
      reload c fs = (⟨c.tags, ms, c.movie_dir, c.tag_dir⟩, some e)) ∧
    (∀ ms ts, load_movies fs c.movie_dir = .ok ms →
      load_tags fs c.tag_dir [c.movie_dir] = .ok ts →
      reload c fs = (⟨ts, ms, c.movie_dir, c.tag_dir⟩, none)) := by
  refine ⟨fun e he => ?_, fun ms e hm ht => ?_, fun ms ts hm ht => ?_⟩
  · simp [reload, he]
  · simp [reload, hm, ht]
  · simp [reload, hm, ht]

/-- Witness for the amended C1, on the `c0`/`fsA` counterexample data:
the movie scan returns the empty table, the tag scan fails, and the
failed reload hands back the collection with the movie table replaced. -/
theorem reload_sequential_replace_witness :
    reload c0 fsA = (⟨c0.tags, [], c0.movie_dir, c0.tag_dir⟩, some .IOError) :=
  (reload_sequential_replace c0 fsA).2.1 [] .IOError (by decide) (by decide)

/-! ### C2: the ignore-set guards the tag scan, not the movie scan -/

theorem moviesLookup_insert_self (m : Movies) (k : PathnameHash)
    (v : Movie) : moviesLookup (moviesInsert m k v) k = some v := by
  rw [moviesLookup, moviesInsert]
  rw [List.find?_cons_of_pos _ (by simp)]
  rfl

theorem moviesLookup_isSome_exists (m : Movies) (k : PathnameHash)
    (h : (moviesLookup m k).isSome = true) : ∃ x ∈ m, x.1 = k := by
  induction m with
  | nil => simp [moviesLookup] at h
  | cons a rest ih =>
    rw [moviesLookup] at h
    by_cases ha : a.1 = k
    · exact ⟨a, List.mem_cons_self a rest, ha⟩
    · rw [List.find?_cons_of_neg _ (by simp [ha])] at h
      obtain ⟨x, hx, hxk⟩ := ih h
      exact ⟨x, List.mem_cons_of_mem a hx, hxk⟩

theorem moviesLookup_isSome_of_mem (m : Movies) (k : PathnameHash)
    (x : PathnameHash × Movie) (hx : x ∈ m) (hxk : x.1 = k) :
    (moviesLookup m k).isSome = true := by
  induction m with
  | nil => simp at hx
  | cons a rest ih =>
    rw [moviesLookup]
    by_cases ha : a.1 = k
    · rw [List.find?_cons_of_pos _ (by simp [ha])]; rfl
    · rw [List.find?_cons_of_neg _ (by simp [ha])]
      rw [List.mem_cons] at hx
      rcases hx with rfl | hx
      · exact absurd hxk ha
      · exact ih hx

theorem moviesLookup_insert_isSome (m : Movies) (k k2 : PathnameHash)
    (v : Movie) (h : (moviesLookup m k).isSome = true) :
    (moviesLookup (moviesInsert m k2 v) k).isSome = true := by
  by_cases hk : k = k2
  · subst hk
    rw [moviesLookup_insert_self]
    rfl
  · obtain ⟨x, hx, hxk⟩ := moviesLookup_isSome_exists m k h
    refine moviesLookup_isSome_of_mem _ k x ?_ hxk
    rw [moviesInsert, List.mem_cons]
    right
    rw [List.mem_filter]
    exact ⟨hx, by simp [hxk, hk]⟩

theorem moviesLoop_preserves_key (fs : Fs) (md : FsPath) :
    ∀ (entries : List DirEntry) (acc ms : Movies) (k : PathnameHash),
      moviesLoop fs md entries acc = .ok ms →
      (moviesLookup acc k).isSome = true →
      (moviesLookup ms k).isSome = true := by
  intro entries
  induction entries with
  | nil => intro acc ms k h hk; rw [moviesLoop] at h; cases h; exact hk
  | cons e rest ih =>
    intro acc ms k h hk
    have hph : path_hash (md ++ [e.name]) = .ok ⟨sha1 e.name⟩ := by
      rw [path_hash, List.getLast?_concat]
    rw [moviesLoop] at h
    by_cases hd : e.kind.is_dir = true
    · rw [if_pos hd] at h
      simp only [hph] at h
      exact ih _ ms k h (moviesLookup_insert_isSome acc k _ _ hk)
    · rw [if_neg hd] at h
      exact ih acc ms k h hk

theorem moviesLoop_mem_key (fs : Fs) (md : FsPath) :
    ∀ (entries : List DirEntry) (acc ms : Movies) (e : DirEntry),
      moviesLoop fs md entries acc = .ok ms →
      e ∈ entries → e.kind.is_dir = true →
      (moviesLookup ms ⟨sha1 e.name⟩).isSome = true := by
  intro entries
  induction entries with
  | nil => intro acc ms e _ he; simp at he
  | cons e2 rest ih =>
    intro acc ms e h he hd
    rw [List.mem_cons] at he
    rw [moviesLoop] at h
    rcases he with rfl | he
    · rw [if_pos hd] at h
      have hph : path_hash (md ++ [e.name]) = .ok ⟨sha1 e.name⟩ := by
        rw [path_hash, List.getLast?_concat]
      simp only [hph] at h
      refine moviesLoop_preserves_key fs md rest _ ms _ h ?_
      rw [moviesLookup_insert_self]
      rfl
    · by_cases hd2 : e2.kind.is_dir = true
      · rw [if_pos hd2] at h
        have hph : path_hash (md ++ [e2.name]) = .ok ⟨sha1 e2.name⟩ := by
          rw [path_hash, List.getLast?_concat]
        simp only [hph] at h
        exact ih _ ms e h he hd
      · rw [if_neg hd2] at h
        exact ih acc ms e h he hd

theorem canonicalize_ok (fs : Fs) (p q : FsPath)
    (h : canonicalize fs p = .ok q) : q = p := by
  rw [canonicalize] at h
  split at h
  · exact (Except.ok.inj h).symm
  · simp at h

theorem readDir_ok_mem (fs : Fs) (d : FsPath) (entries : List DirEntry)
    (hr : fs.readDir d = .ok entries) (pk : FsPath × FileKind)
    (hpk : pk ∈ fs.nodes) (nm : Name) (hlast : pk.1.getLast? = some nm)
    (hdrop : pk.1.dropLast = d) :
    (⟨nm, pk.2⟩ : DirEntry) ∈ entries := by
  rw [Fs.readDir] at hr
  split at hr
  · cases hr
    rw [List.mem_filterMap]
    refine ⟨pk, hpk, ?_⟩
    rw [hlast]
    simp [hdrop]
  · simp at hr

/-- A filesystem whose tag root `"m/t"` is a direct subdirectory of the
movie root `"m"`. -/
def fsB : Fs := ⟨[([[109]], .dir), ([[109], [116]], .dir)]⟩

/-- Claim C2, counterexample: With the tag root `"m/t"` nested directly in
the movie root `"m"`, `Collection::new` *does* produce a `Movie` entry
for the tag root: the ignore-set built from the canonicalized movie root
is passed only to `load_tags`, and `load_movies` applies no ignore
handling at all, so the tag root is indexed as a movie (here the whole
movie table is exactly that one bogus entry). -/
theorem tag_root_scanned_as_movie_counterexample :
    Collection.new fsB [[109]] [[109], [116]] =
      .ok ⟨[], [(⟨sha1 [116]⟩, ⟨[116], [[109], [116]], ⟨sha1 [116]⟩, none⟩)],
        [[109]], [[109], [116]]⟩ ∧
    (match Collection.new fsB [[109]] [[109], [116]] with
     | .ok c => (moviesLookup c.movies ⟨sha1 [116]⟩).isSome
     | .error _ => false) = true := by decide

/-- Claim C2, amended: The canonicalized-path ignore-set (containing the
movie root) guards only the tag scan; the movie scan has no ignore
handling, so whenever the tag root is a direct subdirectory of the movie
root and construction succeeds, the movie table is the unfiltered movie
scan and contains a `Movie` entry keyed by the identifier of the tag
root itself. -/
theorem tag_root_scanned_as_movie (fs : Fs) (md : FsPath) (n : Name)
    (c : Collection) (hchild : (md ++ [n], FileKind.dir) ∈ fs.nodes)
    (hnew : Collection.new fs md (md ++ [n]) = .ok c) :
    load_movies fs md = .ok c.movies ∧
    load_tags fs (md ++ [n]) [md] = .ok c.tags ∧
    (moviesLookup c.movies ⟨sha1 n⟩).isSome = true := by
  rw [Collection.new] at hnew
  split at hnew
  · simp at hnew
  next abs_md hc1 =>
    rw [canonicalize_ok fs md abs_md hc1] at hnew
    split at hnew
    · simp at hnew
    next abs_td hc2 =>
      rw [canonicalize_ok fs (md ++ [n]) abs_td hc2] at hnew
      split at hnew
      · simp at hnew
      next ms hm =>
        dsimp only [] at hnew
        split at hnew
        · simp at hnew
        next ts ht =>
          obtain rfl : c = ⟨ts, ms, md, md ++ [n]⟩ := (Except.ok.inj hnew).symm
          refine ⟨hm, ht, ?_⟩
          rw [load_movies] at hm
          split at hm
          · simp at hm
          next entries hr =>
            have hmem : (⟨n, FileKind.dir⟩ : DirEntry) ∈ entries :=
              readDir_ok_mem fs md entries hr (md ++ [n], .dir) hchild n
                (List.getLast?_concat md) List.dropLast_concat
            exact moviesLoop_mem_key fs md entries [] ms ⟨n, .dir⟩ hm hmem rfl

/-- Witness for the amended C2, on the nested-roots filesystem `fsB`. -/
theorem tag_root_scanned_as_movie_witness :
    load_movies fsB [[109]] =
      .ok [(⟨sha1 [116]⟩, ⟨[116], [[109], [116]], ⟨sha1 [116]⟩, none⟩)] ∧
    load_tags fsB [[109], [116]] [[[109]]] = .ok [] ∧
    (moviesLookup
      [(⟨sha1 [116]⟩, (⟨[116], [[109], [116]], ⟨sha1 [116]⟩, none⟩ : Movie))]
      ⟨sha1 [116]⟩).isSome = true :=
  tag_root_scanned_as_movie fsB [[109]] [116]
    ⟨[], [(⟨sha1 [116]⟩, ⟨[116], [[109], [116]], ⟨sha1 [116]⟩, none⟩)],
      [[109]], [[109], [116]]⟩
    (by decide) (by decide)

/-! ### C9: strict tag-name decoding vs lossy movie-name decoding -/

theorem moviesLoop_ok (fs : Fs) (md : FsPath) :
    ∀ (entries : List DirEntry) (acc : Movies),
      ∃ ms, moviesLoop fs md entries acc = .ok ms := by
  intro entries
  induction entries with
  | nil => intro acc; exact ⟨acc, rfl⟩
  | cons e rest ih =>
    intro acc
    have hph : path_hash (md ++ [e.name]) = .ok ⟨sha1 e.name⟩ := by
      rw [path_hash, List.getLast?_concat]
    by_cases hd : e.kind.is_dir = true
    · obtain ⟨ms, hms⟩ := ih (moviesInsert acc ⟨sha1 e.name⟩
        ⟨utf8Lossy e.name, md ++ [e.name], ⟨sha1 e.name⟩,
          if (fs.lookup (md ++ [e.name] ++ [posterJpg])).isSome then
            some (md ++ [e.name] ++ [posterJpg]) else none⟩)
      refine ⟨ms, ?_⟩
      rw [moviesLoop, if_pos hd]
      simp only [hph]
      exact hms
    · obtain ⟨ms, hms⟩ := ih acc
      refine ⟨ms, ?_⟩
      rw [moviesLoop, if_neg hd]
      exact hms

theorem tagsLoop1_error (tid : FsPath) (ignore : List FsPath) :
    ∀ (entries : List DirEntry) (acc : Tags) (e : DirEntry),
      e ∈ entries → e.kind.is_dir = true → ¬ tid ++ [e.name] ∈ ignore →
      utf8Decode e.name = none →
      tagsLoop1 tid ignore entries acc =
        .error (.Other "Invalid tag directory name") := by
  intro entries
  induction entries with
  | nil => intro acc e he; simp at he
  | cons e2 rest ih =>
    intro acc e he hd hig hbad
    rw [List.mem_cons] at he
    rw [tagsLoop1]
    rcases he with rfl | he
    · rw [if_pos hd, if_neg hig, hbad]
    · by_cases hd2 : e2.kind.is_dir = true
      · rw [if_pos hd2]
        by_cases hig2 : tid ++ [e2.name] ∈ ignore
        · rw [if_pos hig2]
          exact ih acc e he hd hig hbad
        · rw [if_neg hig2]
          cases hdec : utf8Decode e2.name with
          | none => rfl
          | some tag =>
            exact ih _ e he hd hig hbad
      · rw [if_neg hd2]
        exact ih acc e he hd hig hbad

theorem new_ok_scans (fs : Fs) (md td : FsPath) (c : Collection)
    (hnew : Collection.new fs md td = .ok c) :
    load_movies fs md = .ok c.movies ∧ load_tags fs td [md] = .ok c.tags := by
  rw [Collection.new] at hnew
  split at hnew
  · simp at hnew
  next abs_md hc1 =>
    rw [canonicalize_ok fs md abs_md hc1] at hnew
    split at hnew
    · simp at hnew
    next abs_td hc2 =>
      rw [canonicalize_ok fs td abs_td hc2] at hnew
      split at hnew
      · simp at hnew
      next ms hm =>
        dsimp only [] at hnew
        split at hnew
        · simp at hnew
        next ts ht =>
          obtain rfl : c = ⟨ts, ms, md, td⟩ := (Except.ok.inj hnew).symm
          exact ⟨hm, ht⟩

/-- Claim C9: During the tag scan, a tag subdirectory whose base name is not
valid UTF-8 makes the whole scan fail with the
`"Invalid tag directory name"` error, so the whole `Collection::new`
(construct) fails and a `reload` on a collection with these roots fails
without producing a tag table (the stale tag table stays in place);
whereas the movie scan decodes names lossily and succeeds whenever its
root can be listed, whatever bytes the entry names hold. -/
theorem nonUtf8_tag_aborts_scan (fs : Fs) (md td : FsPath)
    (entries : List DirEntry) (e : DirEntry)
    (hr : fs.readDir td = .ok entries) (he : e ∈ entries)
    (hd : e.kind.is_dir = true) (hig : ¬ td ++ [e.name] = md)
    (hbad : utf8Decode e.name = none) :
    load_tags fs td [md] = .error (.Other "Invalid tag directory name") ∧
    (∀ c : Collection, Collection.new fs md td ≠ .ok c) ∧
    (∀ c : Collection, c.movie_dir = md → c.tag_dir = td →
      (reload c fs).2.isSome = true ∧ (reload c fs).1.tags = c.tags) ∧
    (∀ d entries2, fs.readDir d = .ok entries2 →
      ∃ ms, load_movies fs d = .ok ms) := by
  have hig2 : ¬ td ++ [e.name] ∈ [md] := by simp [hig]
  have htags : load_tags fs td [md] =
      .error (.Other "Invalid tag directory name") := by
    rw [load_tags, hr]
    dsimp only []
    rw [tagsLoop1_error td [md] entries [] e he hd hig2 hbad]
  refine ⟨htags, ?_, ?_, ?_⟩
  · intro c hc
    have := (new_ok_scans fs md td c hc).2
    rw [htags] at this
    exact absurd this (by simp)
  · intro c hmd htd
    rw [reload, hmd, htd]
    cases hm : load_movies fs md with
    | error e2 => exact ⟨rfl, rfl⟩
    | ok ms =>
      dsimp only []
      rw [htags]
      exact ⟨rfl, rfl⟩
  · intro d entries2 hr2
    obtain ⟨ms, hms⟩ := moviesLoop_ok fs d entries2 []
    exact ⟨ms, by rw [load_movies, hr2]; exact hms⟩

/-- A filesystem with tag root `"t"` holding a subdirectory whose name is
the invalid-UTF-8 byte `0xff`, and an empty movie root `"m"`. -/
def fsD : Fs := ⟨[([[116]], .dir), ([[116], [255]], .dir), ([[109]], .dir)]⟩

/-- Witness for C9 on `fsD`: the tag scan aborts with the tag-name error
while the movie scan over the (empty) movie root succeeds. -/
theorem nonUtf8_tag_aborts_scan_witness :
    load_tags fsD [[116]] [[[109]]] =
      .error (.Other "Invalid tag directory name") ∧
    (∃ ms, load_movies fsD [[109]] = .ok ms) :=
  ⟨(nonUtf8_tag_aborts_scan fsD [[109]] [[116]]
      [⟨[255], .dir⟩] ⟨[255], .dir⟩
      (by decide) (by decide) (by decide) (by decide) (by decide)).1,
   (nonUtf8_tag_aborts_scan fsD [[109]] [[116]]
      [⟨[255], .dir⟩] ⟨[255], .dir⟩
      (by decide) (by decide) (by decide) (by decide) (by decide)).2.2.2
     [[109]] [] (by decide)⟩

/-! ### C10: `toggle_tag` cannot panic on loader-produced movies -/

theorem mem_moviesInsert (m : Movies) (k : PathnameHash) (v : Movie)
    (kv : PathnameHash × Movie) (h : kv ∈ moviesInsert m k v) :
    kv = (k, v) ∨ kv ∈ m := by
  rw [moviesInsert, List.mem_cons] at h
  rcases h with h | h
  · exact Or.inl h
  · exact Or.inr (List.mem_filter.mp h).1

theorem moviesLoop_path_has_name (fs : Fs) (md : FsPath) :
    ∀ (entries : List DirEntry) (acc ms : Movies),
      moviesLoop fs md entries acc = .ok ms →
      (∀ kv ∈ acc, kv.2.path.getLast?.isSome = true) →
      ∀ kv ∈ ms, kv.2.path.getLast?.isSome = true := by
  intro entries
  induction entries with
  | nil => intro acc ms h hacc; rw [moviesLoop] at h; cases h; exact hacc
  | cons e rest ih =>
    intro acc ms h hacc
    rw [moviesLoop] at h
    by_cases hd : e.kind.is_dir = true
    · rw [if_pos hd] at h
      have hph : path_hash (md ++ [e.name]) = .ok ⟨sha1 e.name⟩ := by
        rw [path_hash, List.getLast?_concat]
      simp only [hph] at h
      refine ih _ ms h ?_
      intro kv hkv
      rcases mem_moviesInsert _ _ _ kv hkv with rfl | hkv2
      · show ((md ++ [e.name]).getLast?).isSome = true
        rw [List.getLast?_concat]
        rfl
      · exact hacc kv hkv2
    · rw [if_neg hd] at h
      exact ih acc ms h hacc

/-- Claim C10: `toggle_tag` unwraps `movie.path.file_name()`, which would
panic (`none` in the model) on a path without a final component; but
every movie built by the movie scan has path `movie_dir ++ [entry name]`,
whose final component exists, so for any movie taken from a loader-built
movie table the toggle never panics, whatever collection, filesystem,
environment and tag name it is called with. -/
theorem toggle_tag_no_panic (fs : Fs) (md : FsPath) (ms : Movies)
    (hload : load_movies fs md = .ok ms) (k : PathnameHash) (mv : Movie)
    (hmem : (k, mv) ∈ ms) :
    ∀ (c : Collection) (fs2 : Fs) (env : ToggleEnv) (tag : List Nat),
      (toggle_tag c fs2 env tag mv).isSome = true := by
  have hlast : mv.path.getLast?.isSome = true := by
    rw [load_movies] at hload
    cases hr : fs.readDir md with
    | error e => rw [hr] at hload; simp at hload
    | ok entries =>
      rw [hr] at hload
      exact moviesLoop_path_has_name fs md entries [] ms hload
        (by intro kv hkv; simp at hkv) (k, mv) hmem
  intro c fs2 env tag
  rw [toggle_tag]
  cases htl : tagLookup c.tags tag with
  | none => rfl
  | some tag_movies =>
    cases hl : mv.path.getLast? with
    | none => rw [hl] at hlast; simp at hlast
    | some base =>
      dsimp only []
      by_cases hin : mv.hash ∈ tag_movies
      · rw [if_pos hin]
        cases removeFile fs2 (c.tag_dir ++ [utf8Encode tag] ++ [base])
          env.failRemove <;> rfl
      · rw [if_neg hin]
        cases symlinkCreate fs2 (c.movie_dir ++ [base])
          (c.tag_dir ++ [utf8Encode tag] ++ [base]) env.failLink <;> rfl

/-- Witness for C10: the movie `"m/a"` as loaded from a real scan, toggled
on a collection that does not even know the tag. -/
theorem toggle_tag_no_panic_witness :
    (toggle_tag c0 fsA noFail [103]
      ⟨[97], [[109], [97]], ⟨sha1 [97]⟩, none⟩).isSome = true :=
  toggle_tag_no_panic
    ⟨[([[109]], .dir), ([[109], [97]], .dir)]⟩ [[109]]
    [(⟨sha1 [97]⟩, ⟨[97], [[109], [97]], ⟨sha1 [97]⟩, none⟩)]
    (by decide) ⟨sha1 [97]⟩ ⟨[97], [[109], [97]], ⟨sha1 [97]⟩, none⟩
    (by decide) c0 fsA noFail [103]

/-! ### C3: a failed toggle leaves collection and filesystem untouched -/

/-- Claim C3: Whenever `toggle_tag` returns an error — `NotFound` because
the tag is absent from the tag table, or the I/O condition because the symlink
deletion or creation failed — the returned state is exactly the input
state: the collection (every tag's membership set, the movie table and
both roots) is unchanged, and the filesystem is unchanged, so in
particular the `NotFound` case performs no filesystem mutation at all. -/
theorem toggle_tag_error_unchanged (c : Collection) (fs : Fs)
    (env : ToggleEnv) (tag : List Nat) (mv : Movie)
    (st : Collection × Fs) (e : Error)
    (h : toggle_tag c fs env tag mv = some (st, some e)) :
    st = (c, fs) := by
  rw [toggle_tag] at h
  cases htl : tagLookup c.tags tag with
  | none =>
    rw [htl] at h
    simp at h
    exact h.1.symm
  | some tag_movies =>
    rw [htl] at h
    cases hl : mv.path.getLast? with
    | none => rw [hl] at h; simp at h
    | some base =>
      rw [hl] at h
      dsimp only [] at h
      by_cases hin : mv.hash ∈ tag_movies
      · rw [if_pos hin] at h
        cases hrf : removeFile fs (c.tag_dir ++ [utf8Encode tag] ++ [base])
            env.failRemove with
        | error e2 =>
          rw [hrf] at h
          simp at h
          exact h.1.symm
        | ok fsr =>
          rw [hrf] at h
          simp at h
      · rw [if_neg hin] at h
        cases hsl : symlinkCreate fs (c.movie_dir ++ [base])
            (c.tag_dir ++ [utf8Encode tag] ++ [base]) env.failLink with
        | error e2 =>
          rw [hsl] at h
          simp at h
          exact h.1.symm
        | ok fsl =>
          rw [hsl] at h
          simp at h

/-- Witness for C3: toggling the unknown tag `"g"` on `c0` fails with
`NotFound` and hands back `c0`/`fsA` untouched. -/
theorem toggle_tag_error_unchanged_witness :
    ((c0, fsA) : Collection × Fs) = (c0, fsA) :=
  toggle_tag_error_unchanged c0 fsA noFail [103] m0 (c0, fsA) .NotFound
    (by decide)

/-! ### C5: frame of a successful toggle -/

theorem tagLookup_tagInsert_self (m : Tags) (k : List Nat)
    (v : List PathnameHash) : tagLookup (tagInsert m k v) k = some v := by
  rw [tagLookup, tagInsert]
  rw [List.find?_cons_of_pos _ (by simp)]
  rfl

theorem tagLookup_filter_ne (m : Tags) (k t2 : List Nat) (hne : ¬ t2 = k) :
    tagLookup (m.filter (fun kv => ¬ kv.1 = k)) t2 = tagLookup m t2 := by
  induction m with
  | nil => rfl
  | cons a rest ih =>
    by_cases hak : a.1 = k
    · rw [List.filter_cons_of_neg (by simp [hak])]
      have hat : ¬ a.1 = t2 := by rw [hak]; intro hh; exact hne hh.symm
      have hskip : tagLookup (a :: rest) t2 = tagLookup rest t2 := by
        rw [tagLookup, tagLookup, List.find?_cons_of_neg _ (by simp [hat])]
      rw [hskip, ih]
    · rw [List.filter_cons_of_pos (by simp [hak])]
      by_cases hat : a.1 = t2
      · rw [tagLookup, tagLookup, List.find?_cons_of_pos _ (by simp [hat]),
          List.find?_cons_of_pos _ (by simp [hat])]
      · rw [tagLookup, tagLookup, List.find?_cons_of_neg _ (by simp [hat]),
          List.find?_cons_of_neg _ (by simp [hat])]
        exact ih

theorem tagLookup_tagInsert_other (m : Tags) (k t2 : List Nat)
    (v : List PathnameHash) (hne : ¬ t2 = k) :
    tagLookup (tagInsert m k v) t2 = tagLookup m t2 := by
  rw [tagInsert, tagLookup,
    List.find?_cons_of_neg _ (by simp; exact fun hh => hne hh.symm)]
  exact tagLookup_filter_ne m k t2 hne

theorem removeFile_ok (fs : Fs) (p : FsPath) (fail : Bool) (fs2 : Fs)
    (h : removeFile fs p fail = .ok fs2) :
    (fs.lookup p).isSome = true ∧
    fs2.nodes = fs.nodes.filter (fun pk => ¬ pk.1 = p) := by
  rw [removeFile] at h
  cases hlk : fs.lookup p with
  | none => rw [hlk] at h; simp at h
  | some k =>
    rw [hlk] at h
    cases k with
    | dir => simp at h
    | file =>
      dsimp only [] at h
      by_cases hf : fail = true
      · rw [if_pos hf] at h; simp at h
      · rw [if_neg hf] at h
        exact ⟨rfl, by rw [← Except.ok.inj h]⟩
    | symlink t =>
      dsimp only [] at h
      by_cases hf : fail = true
      · rw [if_pos hf] at h; simp at h
      · rw [if_neg hf] at h
        exact ⟨rfl, by rw [← Except.ok.inj h]⟩

theorem symlinkCreate_ok (fs : Fs) (orig p : FsPath) (fail : Bool) (fs2 : Fs)
    (h : symlinkCreate fs orig p fail = .ok fs2) :
    fail = false ∧ fs.lookup p = none ∧
    fs2.nodes = fs.nodes ++ [(p, .symlink orig)] := by
  rw [symlinkCreate] at h
  by_cases hc : fail = true ∨ (fs.lookup p).isSome = true
  · rw [if_pos hc] at h; simp at h
  · rw [if_neg hc] at h
    have h1 : fail = false := by
      cases fail
      · rfl
      · exact absurd (Or.inl rfl) hc
    have h2 : fs.lookup p = none := by
      cases hlk : fs.lookup p with
      | none => rfl
      | some k => exact absurd (Or.inr (by rw [hlk]; rfl)) hc
    exact ⟨h1, h2, by rw [← Except.ok.inj h]⟩

/-- Claim C5: A successful `toggle_tag` changes only the toggled tag's
membership set — removing the movie's identifier when it was present,
adding it when absent — leaves every other tag's set, the movie table
and both stored roots unchanged, and performs exactly one filesystem
mutation: either exactly the entry at `tag_dir/tag/<basename>` is
deleted (something existed there before), or exactly one symlink to
`movie_dir/<basename>` is created there (nothing existed before). -/
theorem toggle_tag_frame (c : Collection) (fs : Fs) (env : ToggleEnv)
    (tag : List Nat) (mv : Movie) (c2 : Collection) (fs2 : Fs)
    (h : toggle_tag c fs env tag mv = some ((c2, fs2), none)) :
    c2.movies = c.movies ∧ c2.movie_dir = c.movie_dir ∧
    c2.tag_dir = c.tag_dir ∧
    (∀ t2, ¬ t2 = tag → tagLookup c2.tags t2 = tagLookup c.tags t2) ∧
    (∃ s, tagLookup c.tags tag = some s ∧
      tagLookup c2.tags tag =
        some (if mv.hash ∈ s then setRemove s mv.hash
              else setInsert s mv.hash)) ∧
    (∃ base, mv.path.getLast? = some base ∧
      (((fs.lookup (c.tag_dir ++ [utf8Encode tag] ++ [base])).isSome = true ∧
        fs2.nodes = fs.nodes.filter
          (fun pk => ¬ pk.1 = c.tag_dir ++ [utf8Encode tag] ++ [base])) ∨
       (fs.lookup (c.tag_dir ++ [utf8Encode tag] ++ [base]) = none ∧
        fs2.nodes = fs.nodes ++
          [(c.tag_dir ++ [utf8Encode tag] ++ [base],
            .symlink (c.movie_dir ++ [base]))]))) := by
  rw [toggle_tag] at h
  cases htl : tagLookup c.tags tag with
  | none => rw [htl] at h; simp at h
  | some tag_movies =>
    rw [htl] at h
    cases hl : mv.path.getLast? with
    | none => rw [hl] at h; simp at h
    | some base =>
      rw [hl] at h
      dsimp only [] at h
      by_cases hin : mv.hash ∈ tag_movies
      · rw [if_pos hin] at h
        cases hrf : removeFile fs (c.tag_dir ++ [utf8Encode tag] ++ [base])
            env.failRemove with
        | error e2 => rw [hrf] at h; simp at h
        | ok fsr =>
          rw [hrf] at h
          simp at h
          obtain ⟨hc2, hfs2⟩ := h
          subst hc2
          subst hfs2
          obtain ⟨hsome, hnodes⟩ := removeFile_ok fs _ env.failRemove fsr hrf
          refine ⟨rfl, rfl, rfl, ?_, ⟨tag_movies, rfl, ?_⟩, base, rfl,
            Or.inl ⟨hsome, hnodes⟩⟩
          · intro t2 hne
            exact tagLookup_tagInsert_other c.tags tag t2 _ hne
          · rw [if_pos hin]
            exact tagLookup_tagInsert_self c.tags tag _
      · rw [if_neg hin] at h
        cases hsl : symlinkCreate fs (c.movie_dir ++ [base])
            (c.tag_dir ++ [utf8Encode tag] ++ [base]) env.failLink with
        | error e2 => rw [hsl] at h; simp at h
        | ok fsl =>
          rw [hsl] at h
          simp at h
          obtain ⟨hc2, hfs2⟩ := h
          subst hc2
          subst hfs2
          obtain ⟨-, hnone, hnodes⟩ :=
            symlinkCreate_ok fs (c.movie_dir ++ [base]) _ env.failLink fsl hsl
          refine ⟨rfl, rfl, rfl, ?_, ⟨tag_movies, rfl, ?_⟩, base, rfl,
            Or.inr ⟨hnone, hnodes⟩⟩
          · intro t2 hne
            exact tagLookup_tagInsert_other c.tags tag t2 _ hne
          · rw [if_neg hin]
            exact tagLookup_tagInsert_self c.tags tag _

/-- The filesystem for the toggle scenarios: movie root `"m"` holding
movie `"a"`, tag root `"t"` holding tag directory `"g"`. -/
def fsC : Fs :=
  ⟨[([[109]], .dir), ([[109], [97]], .dir), ([[116]], .dir),
    ([[116], [103]], .dir)]⟩

/-- A collection over `fsC` knowing tag `"g"` (empty) and movie `"a"`. -/
def cC : Collection := ⟨[([103], [])], [(h0, m0)], [[109]], [[116]]⟩

/-- Witness for C5: the successful link-creating toggle of tag `"g"` on
movie `"a"`. -/
theorem toggle_tag_frame_witness :
    (⟨[([103], [h0])], [(h0, m0)], [[109]], [[116]]⟩ : Collection).movies =
      cC.movies ∧
    (⟨[([103], [h0])], [(h0, m0)], [[109]], [[116]]⟩ : Collection).movie_dir =
      cC.movie_dir ∧
    (⟨[([103], [h0])], [(h0, m0)], [[109]], [[116]]⟩ : Collection).tag_dir =
      cC.tag_dir ∧
    (∀ t2, ¬ t2 = [103] →
      tagLookup (⟨[([103], [h0])], [(h0, m0)], [[109]],
        [[116]]⟩ : Collection).tags t2 = tagLookup cC.tags t2) ∧
    (∃ s, tagLookup cC.tags [103] = some s ∧
      tagLookup (⟨[([103], [h0])], [(h0, m0)], [[109]],
        [[116]]⟩ : Collection).tags [103] =
        some (if m0.hash ∈ s then setRemove s m0.hash
              else setInsert s m0.hash)) ∧
    (∃ base, m0.path.getLast? = some base ∧
      (((fsC.lookup (cC.tag_dir ++ [utf8Encode [103]] ++ [base])).isSome =
          true ∧
        (⟨fsC.nodes ++ [([[116], [103], [97]],
          .symlink [[109], [97]])]⟩ : Fs).nodes = fsC.nodes.filter
          (fun pk => ¬ pk.1 = cC.tag_dir ++ [utf8Encode [103]] ++ [base])) ∨
       (fsC.lookup (cC.tag_dir ++ [utf8Encode [103]] ++ [base]) = none ∧
        (⟨fsC.nodes ++ [([[116], [103], [97]],
          .symlink [[109], [97]])]⟩ : Fs).nodes = fsC.nodes ++
          [(cC.tag_dir ++ [utf8Encode [103]] ++ [base],
            .symlink (cC.movie_dir ++ [base]))]))) :=
  toggle_tag_frame cC fsC noFail [103] m0
    ⟨[([103], [h0])], [(h0, m0)], [[109]], [[116]]⟩
    ⟨fsC.nodes ++ [([[116], [103], [97]], .symlink [[109], [97]])]⟩
    (by decide)

/-! ### C4: double toggle restores membership and symlink existence -/

theorem fsLookup_filter_self (ns : List (FsPath × FileKind)) (p : FsPath) :
    Fs.lookup ⟨ns.filter (fun pk => ¬ pk.1 = p)⟩ p = none := by
  induction ns with
  | nil => rfl
  | cons a rest ih =>
    by_cases hap : a.1 = p
    · rw [List.filter_cons_of_neg (by simp [hap])]
      exact ih
    · rw [List.filter_cons_of_pos (by simp [hap])]
      rw [Fs.lookup, List.find?_cons_of_neg _ (by simp [hap])]
      exact ih

theorem fsLookup_none_keys (ns : List (FsPath × FileKind)) (p : FsPath)
    (h : Fs.lookup ⟨ns⟩ p = none) : ∀ pk ∈ ns, ¬ pk.1 = p := by
  induction ns with
  | nil => intro pk hpk; simp at hpk
  | cons a rest ih =>
    intro pk hpk
    by_cases hap : a.1 = p
    · rw [Fs.lookup, List.find?_cons_of_pos _ (by simp [hap])] at h
      simp at h
    · rw [Fs.lookup, List.find?_cons_of_neg _ (by simp [hap])] at h
      rw [List.mem_cons] at hpk
      rcases hpk with rfl | hpk
      · exact hap
      · exact ih h pk hpk

theorem fsLookup_none_filter_id (ns : List (FsPath × FileKind)) (p : FsPath)
    (h : Fs.lookup ⟨ns⟩ p = none) :
    ns.filter (fun pk => ¬ pk.1 = p) = ns :=
  List.filter_eq_self.mpr (fun pk hpk => by
    simp
    exact fsLookup_none_keys ns p h pk hpk)

theorem fsLookup_append_single (ns : List (FsPath × FileKind)) (p : FsPath)
    (k : FileKind) (h : Fs.lookup ⟨ns⟩ p = none) :
    Fs.lookup ⟨ns ++ [(p, k)]⟩ p = some k := by
  induction ns with
  | nil =>
    rw [List.nil_append, Fs.lookup, List.find?_cons_of_pos _ (by simp)]
    rfl
  | cons a rest ih =>
    by_cases hap : a.1 = p
    · rw [Fs.lookup, List.find?_cons_of_pos _ (by simp [hap])] at h
      simp at h
    · rw [Fs.lookup, List.find?_cons_of_neg _ (by simp [hap])] at h
      rw [List.cons_append, Fs.lookup, List.find?_cons_of_neg _ (by simp [hap])]
      exact ih h

theorem mem_setInsert_self (s : List PathnameHash) (h : PathnameHash) :
    h ∈ setInsert s h := by
  rw [setInsert]
  by_cases hh : h ∈ s
  · rw [if_pos hh]; exact hh
  · rw [if_neg hh]
    exact List.mem_append.mpr (Or.inr (by simp))

theorem not_mem_setRemove_self (s : List PathnameHash) (h : PathnameHash) :
    ¬ h ∈ setRemove s h := by
  rw [setRemove]
  intro hmem
  have := (List.mem_filter.mp hmem).2
  simp at this

theorem setRemove_setInsert (s : List PathnameHash) (h : PathnameHash)
    (hn : ¬ h ∈ s) : setRemove (setInsert s h) h = s := by
  rw [setInsert, if_neg hn, setRemove, List.filter_append]
  have h1 : s.filter (fun x => ¬ x = h) = s :=
    List.filter_eq_self.mpr (fun x hx => by
      simp
      intro hxh
      exact hn (hxh ▸ hx))
  have h2 : [h].filter (fun x => ¬ x = h) = [] := by simp
  rw [h1, h2, List.append_nil]

theorem mem_setInsert_setRemove (s : List PathnameHash) (h x : PathnameHash)
    (hin : h ∈ s) : x ∈ setInsert (setRemove s h) h ↔ x ∈ s := by
  rw [setInsert, if_neg (not_mem_setRemove_self s h), setRemove]
  rw [List.mem_append, List.mem_filter]
  constructor
  · rintro (⟨hx, _⟩ | hx)
    · exact hx
    · simp at hx
      exact hx ▸ hin
  · intro hx
    by_cases hxh : x = h
    · right; simp [hxh]
    · left
      exact ⟨hx, by simp [hxh]⟩

theorem removeFile_nodir_ok (fs : Fs) (p : FsPath) (k : FileKind)
    (fail : Bool) (hlk : fs.lookup p = some k) (hk : ¬ k = .dir)
    (hf : fail = false) :
    removeFile fs p fail =
      .ok ⟨fs.nodes.filter (fun pk => ¬ pk.1 = p)⟩ := by
  rw [removeFile, hlk]
  cases k with
  | dir => exact absurd rfl hk
  | file => rw [if_neg (by simp [hf])]
  | symlink t => rw [if_neg (by simp [hf])]

/-- Claim C4: For an existing tag, toggling the same movie twice in a row
with no external interference restores both the tag's in-memory
membership set (as a set) and the on-disk state of the symlink path
`tag_dir/tag/<basename>` to what they were before the first call — the
toggle is its own inverse. (This also covers the inconsistent corners:
when the first filesystem step fails, neither call changes anything.) -/
theorem toggle_tag_involutive (c : Collection) (fs : Fs) (tag : List Nat)
    (mv : Movie) (base : Name)
    (hexists : (tagLookup c.tags tag).isSome = true)
    (hbase : mv.path.getLast? = some base)
    (st1 st2 : (Collection × Fs) × Option Error)
    (h1 : toggle_tag c fs noFail tag mv = some st1)
    (h2 : toggle_tag st1.1.1 st1.1.2 noFail tag mv = some st2) :
    (∃ s s2, tagLookup c.tags tag = some s ∧
      tagLookup st2.1.1.tags tag = some s2 ∧ (∀ x, x ∈ s2 ↔ x ∈ s)) ∧
    (st2.1.2.lookup (c.tag_dir ++ [utf8Encode tag] ++ [base])).isSome =
      (fs.lookup (c.tag_dir ++ [utf8Encode tag] ++ [base])).isSome := by
  cases htl : tagLookup c.tags tag with
  | none => rw [htl] at hexists; simp at hexists
  | some s =>
    rw [toggle_tag, htl, hbase] at h1
    dsimp only [] at h1
    by_cases hin : mv.hash ∈ s
    · rw [if_pos hin] at h1
      cases hlk : fs.lookup (c.tag_dir ++ [utf8Encode tag] ++ [base]) with
      | none =>
        have hrf : removeFile fs (c.tag_dir ++ [utf8Encode tag] ++ [base])
            noFail.failRemove = .error .IOError := by
          rw [removeFile, hlk]
        rw [hrf] at h1
        obtain rfl := Option.some.inj h1
        dsimp only [] at h2
        rw [toggle_tag, htl, hbase] at h2
        dsimp only [] at h2
        rw [if_pos hin, hrf] at h2
        obtain rfl := Option.some.inj h2
        exact ⟨⟨s, s, rfl, htl, fun x => Iff.rfl⟩,
          by dsimp only []; rw [hlk]⟩
      | some k =>
        by_cases hkd : k = .dir
        · subst hkd
          have hrf : removeFile fs (c.tag_dir ++ [utf8Encode tag] ++ [base])
              noFail.failRemove = .error .IOError := by
            rw [removeFile, hlk]
          rw [hrf] at h1
          obtain rfl := Option.some.inj h1
          dsimp only [] at h2
          rw [toggle_tag, htl, hbase] at h2
          dsimp only [] at h2
          rw [if_pos hin, hrf] at h2
          obtain rfl := Option.some.inj h2
          exact ⟨⟨s, s, rfl, htl, fun x => Iff.rfl⟩,
            by dsimp only []; rw [hlk]⟩
        · have hrf := removeFile_nodir_ok fs
            (c.tag_dir ++ [utf8Encode tag] ++ [base]) k noFail.failRemove
            hlk hkd rfl
          rw [hrf] at h1
          obtain rfl := Option.some.inj h1
          dsimp only [] at h2
          rw [toggle_tag] at h2
          dsimp only [] at h2
          rw [tagLookup_tagInsert_self, hbase] at h2
          dsimp only [] at h2
          rw [if_neg (not_mem_setRemove_self s mv.hash)] at h2
          have hlk2 : Fs.lookup ⟨fs.nodes.filter (fun pk =>
              ¬ pk.1 = c.tag_dir ++ [utf8Encode tag] ++ [base])⟩
              (c.tag_dir ++ [utf8Encode tag] ++ [base]) = none :=
            fsLookup_filter_self fs.nodes _
          have hsl : symlinkCreate ⟨fs.nodes.filter (fun pk =>
                ¬ pk.1 = c.tag_dir ++ [utf8Encode tag] ++ [base])⟩
              (c.movie_dir ++ [base])
              (c.tag_dir ++ [utf8Encode tag] ++ [base]) noFail.failLink =
              .ok ⟨fs.nodes.filter (fun pk =>
                ¬ pk.1 = c.tag_dir ++ [utf8Encode tag] ++ [base]) ++
                [(c.tag_dir ++ [utf8Encode tag] ++ [base],
                  .symlink (c.movie_dir ++ [base]))]⟩ := by
            have hcond : ¬(noFail.failLink = true ∨
                (Fs.lookup ⟨fs.nodes.filter (fun pk =>
                  ¬ pk.1 = c.tag_dir ++ [utf8Encode tag] ++ [base])⟩
                  (c.tag_dir ++ [utf8Encode tag] ++ [base])).isSome = true) := by
              rintro (hf | hs)
              · exact absurd hf (by decide)
              · rw [hlk2] at hs; simp at hs
            rw [symlinkCreate, if_neg hcond]
          rw [hsl] at h2
          obtain rfl := Option.some.inj h2
          constructor
          · exact ⟨s, setInsert (setRemove s mv.hash) mv.hash, rfl,
              tagLookup_tagInsert_self _ _ _,
              fun x => mem_setInsert_setRemove s mv.hash x hin⟩
          · rw [show ((((⟨tagInsert (tagInsert c.tags tag
              (setRemove s mv.hash)) tag
              (setInsert (setRemove s mv.hash) mv.hash), c.movies,
              c.movie_dir, c.tag_dir⟩ : Collection),
              (⟨fs.nodes.filter (fun pk =>
                ¬ pk.1 = c.tag_dir ++ [utf8Encode tag] ++ [base]) ++
                [(c.tag_dir ++ [utf8Encode tag] ++ [base],
                  .symlink (c.movie_dir ++ [base]))]⟩ : Fs)),
              (none : Option Error)) :
              (Collection × Fs) × Option Error).1.2 = (⟨fs.nodes.filter
                (fun pk =>
                  ¬ pk.1 = c.tag_dir ++ [utf8Encode tag] ++ [base]) ++
                [(c.tag_dir ++ [utf8Encode tag] ++ [base],
                  .symlink (c.movie_dir ++ [base]))]⟩ : Fs) from rfl]
            rw [fsLookup_append_single _ _ _ hlk2]
            rfl
    · rw [if_neg hin] at h1
      cases hlk : fs.lookup (c.tag_dir ++ [utf8Encode tag] ++ [base]) with
      | some k =>
        have hsl : symlinkCreate fs (c.movie_dir ++ [base])
            (c.tag_dir ++ [utf8Encode tag] ++ [base]) noFail.failLink =
            .error .IOError := by
          rw [symlinkCreate, if_pos (Or.inr (by rw [hlk]; rfl))]
        rw [hsl] at h1
        obtain rfl := Option.some.inj h1
        dsimp only [] at h2
        rw [toggle_tag, htl, hbase] at h2
        dsimp only [] at h2
        rw [if_neg hin, hsl] at h2
        obtain rfl := Option.some.inj h2
        exact ⟨⟨s, s, rfl, htl, fun x => Iff.rfl⟩,
          by dsimp only []; rw [hlk]⟩
      | none =>
        have hsl : symlinkCreate fs (c.movie_dir ++ [base])
            (c.tag_dir ++ [utf8Encode tag] ++ [base]) noFail.failLink =
            .ok ⟨fs.nodes ++ [(c.tag_dir ++ [utf8Encode tag] ++ [base],
              .symlink (c.movie_dir ++ [base]))]⟩ := by
          have hcond : ¬(noFail.failLink = true ∨
              (fs.lookup (c.tag_dir ++ [utf8Encode tag] ++ [base])).isSome =
                true) := by
            rintro (hf | hs)
            · exact absurd hf (by decide)
            · rw [hlk] at hs; simp at hs
          rw [symlinkCreate, if_neg hcond]
        rw [hsl] at h1
        obtain rfl := Option.some.inj h1
        dsimp only [] at h2
        rw [toggle_tag] at h2
        dsimp only [] at h2
        rw [tagLookup_tagInsert_self, hbase] at h2
        dsimp only [] at h2
        rw [if_pos (mem_setInsert_self s mv.hash)] at h2
        have hlk2 : Fs.lookup ⟨fs.nodes ++
            [(c.tag_dir ++ [utf8Encode tag] ++ [base],
              .symlink (c.movie_dir ++ [base]))]⟩
            (c.tag_dir ++ [utf8Encode tag] ++ [base]) =
            some (.symlink (c.movie_dir ++ [base])) :=
          fsLookup_append_single fs.nodes _ _ hlk
        have hrf2 := removeFile_nodir_ok ⟨fs.nodes ++
            [(c.tag_dir ++ [utf8Encode tag] ++ [base],
              .symlink (c.movie_dir ++ [base]))]⟩
            (c.tag_dir ++ [utf8Encode tag] ++ [base]) _
            noFail.failRemove hlk2 (by simp) rfl
        rw [hrf2] at h2
        obtain rfl := Option.some.inj h2
        have hfilter : (fs.nodes ++
            [(c.tag_dir ++ [utf8Encode tag] ++ [base],
              FileKind.symlink (c.movie_dir ++ [base]))]).filter
            (fun pk => ¬ pk.1 = c.tag_dir ++ [utf8Encode tag] ++ [base]) =
            fs.nodes := by
          rw [List.filter_append, fsLookup_none_filter_id fs.nodes _ hlk]
          simp
        constructor
        · refine ⟨s, setRemove (setInsert s mv.hash) mv.hash, rfl,
            tagLookup_tagInsert_self _ _ _, ?_⟩
          intro x
          rw [setRemove_setInsert s mv.hash hin]
        · dsimp only []
          rw [hfilter]
          show (fs.lookup (c.tag_dir ++ [utf8Encode tag] ++ [base])).isSome =
            (none : Option FileKind).isSome
          rw [hlk]

/-- Witness for C4: toggling tag `"g"` on movie `"a"` twice over `fsC`
creates and then removes the symlink, restoring membership and disk
state. -/
theorem toggle_tag_involutive_witness :
    (∃ s s2, tagLookup cC.tags [103] = some s ∧
      tagLookup ((((⟨[([103], [])], [(h0, m0)], [[109]], [[116]]⟩ :
        Collection), fsC), (none : Option Error)).1.1).tags [103] =
        some s2 ∧ (∀ x, x ∈ s2 ↔ x ∈ s)) ∧
    (((((⟨[([103], [])], [(h0, m0)], [[109]], [[116]]⟩ : Collection),
      fsC), (none : Option Error)).1.2).lookup
        (cC.tag_dir ++ [utf8Encode [103]] ++ [[97]])).isSome =
      (fsC.lookup (cC.tag_dir ++ [utf8Encode [103]] ++ [[97]])).isSome :=
  toggle_tag_involutive cC fsC [103] m0 [97] (by decide) (by decide)
    ((⟨[([103], [h0])], [(h0, m0)], [[109]], [[116]]⟩,
      ⟨fsC.nodes ++ [([[116], [103], [97]], .symlink [[109], [97]])]⟩),
      none)
    ((⟨[([103], [])], [(h0, m0)], [[109]], [[116]]⟩, fsC), none)
    (by decide) (by decide)

end Tagrs
